import Mathlib

/-!
Shallow embedding of the Chronology (Hitster-style) console game engine from
`Test_Chrono_Game_Felix.py`: data model (`Song`), the insertion validator
(`is_correct_insertion`), candidate selection (`choose_next_song`), the
allowed-insertion-position computation of `ask_position`, two-player turn
rotation (`next_player_alive`), and the single- and two-player session loops
(`play_single` / `play_two`) modelled as step functions driven by a script of
random picks and player inputs.

Python integers are `Int`; Python sets are `Finset`; Python's stable
`sorted(..., key=lambda s: s.year)` is `List.mergeSort` on the year key;
Python slice indices (which may be negative or out of range) are interpreted
by `pySliceIdx`.
-/

/-- `MAX_LIVES = 3` from the config section. -/
def MAX_LIVES : Int := 3

/-- A Python `track_id` is `int | str`. -/
abbrev TrackId := Int ⊕ String

/-- The `Song` dataclass (frozen) of the source. -/
structure Song where
  track_id : TrackId
  track_name : String
  track_artist : String
  year : Int
  track_url : Option String
  popularity : Option Int
  track_cover : Option String
deriving DecidableEq, Repr

instance : Inhabited Song :=
  ⟨⟨Sum.inl 0, "", "", 0, none, none, none⟩⟩

/-- `sorted(timeline, key=lambda s: s.year)`. -/
def sortByYear (timeline : List Song) : List Song :=
  timeline.mergeSort fun a b => decide (a.year ≤ b.year)

/-- Effective start index of the Python slices `xs[:i]` / `xs[i:]` on a list
of length `len`: negative indices count from the end and everything is clamped
into `[0, len]`, exactly as Python slicing does. -/
def pySliceIdx (len : Nat) (i : Int) : Nat :=
  if i < 0 then ((len : Int) + i).toNat else min i.toNat len

/-- `is_correct_insertion(timeline, new_song, insert_idx)`:
sorts the timeline by year, splices `new_song` at `insert_idx` using Python
slice semantics, and checks that the year list equals its own sorted form and
has as many elements as its set of distinct years. -/
def is_correct_insertion (timeline : List Song) (new_song : Song)
    (insert_idx : Int) : Bool :=
  let tl_sorted := sortByYear timeline
  let k := pySliceIdx tl_sorted.length insert_idx
  let tentative := tl_sorted.take k ++ [new_song] ++ tl_sorted.drop k
  let years := tentative.map fun s => s.year
  (years == years.mergeSort fun a b => decide (a ≤ b))
    && (years.length == years.dedup.length)

/-- `choose_next_song(pool, used_ids, used_years)`: filters the pool down to
songs whose id and year are both unused, and returns `None` when that subset
is empty, otherwise one element of it.  `random.choice` is modelled by an
extra argument `pick` selecting which element of the non-empty candidate list
is drawn. -/
def choose_next_song (pool : List Song) (used_ids : Finset TrackId)
    (used_years : Finset Int) (pick : Nat) : Option Song :=
  let candidates := pool.filter fun s =>
    decide (s.track_id ∉ used_ids) && decide (s.year ∉ used_years)
  if h : candidates.length = 0 then none
  else some (candidates.get ⟨pick % candidates.length,
    Nat.mod_lt _ (Nat.pos_of_ne_zero h)⟩)

/-- The allowed insert positions built by `ask_position`: always `0` (before
first) and `len(tl)` (after last), plus `i + 1` for every adjacent pair of
the year-sorted timeline whose year gap exceeds 1. -/
def allowed_positions (timeline : List Song) : List Nat :=
  let tl := sortByYear timeline
  [0]
    ++ (((List.range (tl.length - 1)).filter fun i =>
          decide (1 < (tl.getD (i + 1) default).year - (tl.getD i default).year)).map
        fun i => i + 1)
    ++ [tl.length]

/-- `next_player_alive(current_idx, lives)`: the other player if they still
have lives, else the current player. -/
def next_player_alive (current_idx : Nat) (lives : List Int) : Nat :=
  let other := 1 - current_idx
  if 0 < lives.getD other 0 then other else current_idx

/-- One player input at a placement prompt: a chosen insert index, or "EXIT". -/
inductive RoundInput where
  | place (idx : Nat)
  | quit
deriving DecidableEq, Repr

/-- Mutable state of `play_single`. -/
structure SingleState where
  timeline : List Song
  used_ids : Finset TrackId
  used_years : Finset Int
  lives : Int
  score : Int
deriving DecidableEq

/-- Result of one iteration of the `play_single` loop body. -/
inductive StepResult where
  | next (s : SingleState)
  | deckCleared (s : SingleState)
  | gameOver (s : SingleState)
  | aborted (s : SingleState)
deriving DecidableEq

/-- One iteration of the `play_single` while-loop: draw a candidate (deck
exhausted ends the session), prompt (EXIT aborts with no state change),
score or lose a life according to `is_correct_insertion`, commit the candidate
into the sorted timeline and the used sets, then end the game if lives ran
out. -/
def playRound (pool : List Song) (pick : Nat) (inp : RoundInput)
    (st : SingleState) : StepResult :=
  match choose_next_song pool st.used_ids st.used_years pick with
  | none => .deckCleared st
  | some cand =>
    match inp with
    | .quit => .aborted st
    | .place idx =>
      let correct := is_correct_insertion st.timeline cand idx
      let score' := if correct then st.score + 1 else st.score
      let lives' := if correct then st.lives else st.lives - 1
      let st' : SingleState :=
        { timeline := sortByYear (st.timeline ++ [cand])
          used_ids := insert cand.track_id st.used_ids
          used_years := insert cand.year st.used_years
          lives := lives'
          score := score' }
      if lives' ≤ 0 then .gameOver st' else .next st'

/-- How a (possibly unfinished) single-player session left off. -/
inductive SingleOutcome where
  | inProgress
  | deckCleared
  | gameOver
  | aborted
deriving DecidableEq, Repr

/-- Runs the `play_single` loop over a script of `(pick, input)` rounds,
stopping at the first terminal result. -/
def runSingle (pool : List Song) (script : List (Nat × RoundInput))
    (st : SingleState) : SingleState × SingleOutcome :=
  match script with
  | [] => (st, .inProgress)
  | (pick, inp) :: rest =>
    match playRound pool pick inp st with
    | .next st' => runSingle pool rest st'
    | .deckCleared st' => (st', .deckCleared)
    | .gameOver st' => (st', .gameOver)
    | .aborted st' => (st', .aborted)

/-- Initial state of `play_single`: the random starter seeds the timeline and
both used-sets; `MAX_LIVES` lives and score 0. -/
def initSingle (starter : Song) : SingleState :=
  { timeline := [starter]
    used_ids := {starter.track_id}
    used_years := {starter.year}
    lives := MAX_LIVES
    score := 0 }

/-- Mutable state of `play_two`.  `lives` and `scores` are the Python lists
`[.., ..]` indexed by player 0/1; `current` is the current-turn index. -/
structure TwoState where
  timeline : List Song
  used_ids : Finset TrackId
  used_years : Finset Int
  lives : List Int
  scores : List Int
  current : Nat
deriving DecidableEq

/-- The turn correction at the top of the `play_two` loop body:
`if lives[current] <= 0: current = next_player_alive(current, lives)`. -/
def turnFix (st : TwoState) : Nat :=
  if st.lives.getD st.current 0 ≤ 0 then next_player_alive st.current st.lives
  else st.current

/-- Result of one iteration of the `play_two` loop body. -/
inductive TwoStepResult where
  | next (s : TwoState)
  | deckCleared (s : TwoState)
  | bothOut (s : TwoState)
  | aborted (s : TwoState)
deriving DecidableEq

/-- One iteration of the `play_two` while-loop: draw (deck exhausted breaks),
skip a dead current player, break if both players are out, prompt (EXIT aborts
with no state change), apply score/lives to the player to move, commit the
candidate, break if both players are now out, else rotate the turn with
`next_player_alive`. -/
def playRoundTwo (pool : List Song) (pick : Nat) (inp : RoundInput)
    (st : TwoState) : TwoStepResult :=
  match choose_next_song pool st.used_ids st.used_years pick with
  | none => .deckCleared st
  | some cand =>
    let cur := turnFix st
    if st.lives.getD 0 0 ≤ 0 ∧ st.lives.getD 1 0 ≤ 0 then
      .bothOut { st with current := cur }
    else
      match inp with
      | .quit => .aborted { st with current := cur }
      | .place idx =>
        let correct := is_correct_insertion st.timeline cand idx
        let scores' :=
          if correct then st.scores.set cur (st.scores.getD cur 0 + 1)
          else st.scores
        let lives' :=
          if correct then st.lives
          else st.lives.set cur (st.lives.getD cur 0 - 1)
        let st' : TwoState :=
          { timeline := sortByYear (st.timeline ++ [cand])
            used_ids := insert cand.track_id st.used_ids
            used_years := insert cand.year st.used_years
            lives := lives'
            scores := scores'
            current := cur }
        if lives'.getD 0 0 ≤ 0 ∧ lives'.getD 1 0 ≤ 0 then .bothOut st'
        else .next { st' with current := next_player_alive cur lives' }

/-- The end-of-session verdict of `play_two`: strictly higher score wins,
equal scores tie.  Lives are not consulted. -/
inductive TwoWinner where
  | p0
  | p1
  | tie
deriving DecidableEq, Repr

/-- The final-score comparison at the bottom of `play_two`. -/
def declareWinner (scores : List Int) : TwoWinner :=
  if scores.getD 1 0 < scores.getD 0 0 then .p0
  else if scores.getD 0 0 < scores.getD 1 0 then .p1
  else .tie

/-- How a (possibly unfinished) two-player session left off.  Both `break`
paths (deck exhausted, both players out) fall through to the final-score
comparison; EXIT returns to the menu without one. -/
inductive TwoOutcome where
  | inProgress
  | deckCleared (w : TwoWinner)
  | allEliminated (w : TwoWinner)
  | aborted
deriving DecidableEq, Repr

/-- Runs the `play_two` loop over a script of `(pick, input)` rounds,
stopping at the first terminal result. -/
def runTwo (pool : List Song) (script : List (Nat × RoundInput))
    (st : TwoState) : TwoState × TwoOutcome :=
  match script with
  | [] => (st, .inProgress)
  | (pick, inp) :: rest =>
    match playRoundTwo pool pick inp st with
    | .next st' => runTwo pool rest st'
    | .deckCleared st' => (st', .deckCleared (declareWinner st'.scores))
    | .bothOut st' => (st', .allEliminated (declareWinner st'.scores))
    | .aborted st' => (st', .aborted)

/-- Initial state of `play_two`: starter seeds timeline and used-sets, both
players have `MAX_LIVES` lives and score 0, player 0 moves first. -/
def initTwo (starter : Song) : TwoState :=
  { timeline := [starter]
    used_ids := {starter.track_id}
    used_years := {starter.year}
    lives := [MAX_LIVES, MAX_LIVES]
    scores := [0, 0]
    current := 0 }

/-! ### Sorting helpers -/

theorem sortByYear_perm (tl : List Song) : (sortByYear tl).Perm tl :=
  List.mergeSort_perm tl _

theorem sortByYear_sorted (tl : List Song) :
    (sortByYear tl).Pairwise fun a b => a.year ≤ b.year := by
  have h := @List.sorted_mergeSort Song
      (fun a b : Song => decide (a.year ≤ b.year))
      (fun a b c hab hbc => by
        simp only [decide_eq_true_eq] at *
        exact le_trans hab hbc)
      (fun a b => by
        simp only [Bool.or_eq_true, decide_eq_true_eq]
        exact le_total a.year b.year)
      tl
  exact h.imp fun hab => of_decide_eq_true hab

theorem sortByYear_length (tl : List Song) :
    (sortByYear tl).length = tl.length :=
  (sortByYear_perm tl).length_eq

/-- A list of integers passes the `years == sorted(years) and
len(years) == len(set(years))` check iff it is strictly increasing. -/
theorem sortedNodupCheck_iff (l : List Int) :
    ((l == l.mergeSort fun a b => decide (a ≤ b))
      && (l.length == l.dedup.length)) = true ↔ l.Pairwise (· < ·) := by
  rw [Bool.and_eq_true, beq_iff_eq, beq_iff_eq]
  constructor
  · rintro ⟨hsort, hlen⟩
    have hdedup : l.dedup = l :=
      (List.dedup_sublist l).eq_of_length hlen.symm
    have hnodup : l.Nodup := List.dedup_eq_self.mp hdedup
    have hsorted : l.Pairwise (· ≤ ·) := by
      have h := @List.sorted_mergeSort Int
          (fun a b : Int => decide (a ≤ b))
          (fun a b c hab hbc => by
            simp only [decide_eq_true_eq] at *
            exact le_trans hab hbc)
          (fun a b => by
            simp only [Bool.or_eq_true, decide_eq_true_eq]
            exact le_total a b)
          l
      rw [← hsort] at h
      exact h.imp fun hab => of_decide_eq_true hab
    exact (hsorted.and hnodup).imp fun hab => lt_of_le_of_ne hab.1 hab.2
  · intro hstrict
    have hsorted : l.Pairwise fun a b : Int => decide (a ≤ b) = true :=
      hstrict.imp fun hab => decide_eq_true (le_of_lt hab)
    have hnodup : l.Nodup := hstrict.imp fun hab => ne_of_lt hab
    exact ⟨(List.mergeSort_of_sorted hsorted).symm,
      by rw [List.dedup_eq_self.mpr hnodup]⟩

/-- If the years on a timeline are pairwise distinct, its year-sorted
projection is strictly increasing in years. -/
theorem sortByYear_strict (tl : List Song)
    (h : (tl.map fun s => s.year).Nodup) :
    (sortByYear tl).Pairwise fun a b => a.year < b.year := by
  have hperm := (sortByYear_perm tl).map fun s => s.year
  have hnd : ((sortByYear tl).map fun s => s.year).Nodup :=
    hperm.nodup_iff.mpr h
  have hne : (sortByYear tl).Pairwise fun a b => a.year ≠ b.year :=
    List.pairwise_map.mp hnd
  exact ((sortByYear_sorted tl).and hne).imp fun hab =>
    lt_of_le_of_ne hab.1 hab.2

/-! ### Candidate selection -/

theorem choose_next_song_some {pool : List Song} {used_ids : Finset TrackId}
    {used_years : Finset Int} {pick : Nat} {s : Song}
    (h : choose_next_song pool used_ids used_years pick = some s) :
    s ∈ pool ∧ s.track_id ∉ used_ids ∧ s.year ∉ used_years := by
  unfold choose_next_song at h
  set candidates := pool.filter fun s =>
    decide (s.track_id ∉ used_ids) && decide (s.year ∉ used_years) with hc
  by_cases hnil : candidates.length = 0
  · rw [dif_pos hnil] at h
    cases h
  · rw [dif_neg hnil] at h
    have hmem : s ∈ candidates := by
      rw [← Option.some_inj.mp h]
      exact candidates.get_mem _ _
    have := List.mem_filter.mp (hc ▸ hmem)
    rcases this with ⟨hp, hdec⟩
    rw [Bool.and_eq_true, decide_eq_true_eq, decide_eq_true_eq] at hdec
    exact ⟨hp, hdec.1, hdec.2⟩

theorem choose_next_song_none_iff (pool : List Song) (used_ids : Finset TrackId)
    (used_years : Finset Int) (pick : Nat) :
    choose_next_song pool used_ids used_years pick = none ↔
      ∀ s ∈ pool, s.track_id ∈ used_ids ∨ s.year ∈ used_years := by
  unfold choose_next_song
  set candidates := pool.filter fun s =>
    decide (s.track_id ∉ used_ids) && decide (s.year ∉ used_years) with hc
  by_cases hnil : candidates.length = 0
  · rw [dif_pos hnil]
    simp only [true_iff]
    have hempty : candidates = [] := List.length_eq_zero.mp hnil
    intro s hs
    by_contra hcon
    push_neg at hcon
    have : s ∈ candidates := by
      rw [hc]
      exact List.mem_filter.mpr ⟨hs, by
        rw [Bool.and_eq_true, decide_eq_true_eq, decide_eq_true_eq]
        exact hcon⟩
    rw [hempty] at this
    cases this
  · rw [dif_neg hnil]
    refine ⟨fun h => absurd h (by simp), fun hall => absurd ?_ hnil⟩
    have hempty : candidates = [] := by
      rw [List.eq_nil_iff_forall_not_mem]
      intro s hs
      have := List.mem_filter.mp (hc ▸ hs)
      rcases this with ⟨hp, hdec⟩
      rw [Bool.and_eq_true, decide_eq_true_eq, decide_eq_true_eq] at hdec
      rcases hall s hp with hid | hyr
      · exact hdec.1 hid
      · exact hdec.2 hyr
    rw [hempty]
    rfl

/-! ### Single-player invariant -/

/-- Data invariant of a single-player session state: every placed year is
marked used, the placed years are pairwise distinct, and lives stay within
`[0, MAX_LIVES]`. -/
def InvS (st : SingleState) : Prop :=
  (∀ s ∈ st.timeline, s.year ∈ st.used_years) ∧
  (st.timeline.map fun s => s.year).Nodup ∧
  0 ≤ st.lives ∧ st.lives ≤ MAX_LIVES

theorem commit_years_nodup {tl : List Song} {uy : Finset Int} {cand : Song}
    (hsub : ∀ s ∈ tl, s.year ∈ uy) (hnd : (tl.map fun s => s.year).Nodup)
    (hfresh : cand.year ∉ uy) :
    ((tl ++ [cand]).map fun s => s.year).Nodup := by
  rw [List.map_append, List.nodup_append]
  refine ⟨hnd, List.nodup_singleton _, ?_⟩
  intro y hy hy'
  simp only [List.map_cons, List.map_nil, List.mem_singleton] at hy'
  subst hy'
  obtain ⟨s, hs, hys⟩ := List.mem_map.mp hy
  exact hfresh (hys ▸ hsub s hs)

/-! ### Single-player round unfolding -/

theorem playRound_none_eq {pool : List Song} {pick : Nat} {st : SingleState}
    (inp : RoundInput)
    (hch : choose_next_song pool st.used_ids st.used_years pick = none) :
    playRound pool pick inp st = .deckCleared st := by
  unfold playRound
  rw [hch]

theorem playRound_quit_eq {pool : List Song} {pick : Nat} {st : SingleState}
    {cand : Song}
    (hch : choose_next_song pool st.used_ids st.used_years pick = some cand) :
    playRound pool pick .quit st = .aborted st := by
  unfold playRound
  rw [hch]

/-- The state committed by a resolved single-player round. -/
def commitSingle (st : SingleState) (cand : Song) (idx : Nat) : SingleState :=
  { timeline := sortByYear (st.timeline ++ [cand])
    used_ids := insert cand.track_id st.used_ids
    used_years := insert cand.year st.used_years
    lives := if is_correct_insertion st.timeline cand idx then st.lives
             else st.lives - 1
    score := if is_correct_insertion st.timeline cand idx then st.score + 1
             else st.score }

theorem playRound_place_eq {pool : List Song} {pick : Nat} {st : SingleState}
    {cand : Song} (idx : Nat)
    (hch : choose_next_song pool st.used_ids st.used_years pick = some cand) :
    playRound pool pick (.place idx) st =
      if (commitSingle st cand idx).lives ≤ 0
      then .gameOver (commitSingle st cand idx)
      else .next (commitSingle st cand idx) := by
  unfold playRound commitSingle
  rw [hch]

/-- A resolved round (one that produced `next` or `gameOver`) drew a fresh
candidate, committed it into the sorted timeline and the used-sets, and
applied the score/lives update dictated by `is_correct_insertion`. -/
theorem playRound_resolved {pool : List Song} {pick idx : Nat}
    {st st' : SingleState}
    (h : playRound pool pick (.place idx) st = .next st' ∨
         playRound pool pick (.place idx) st = .gameOver st') :
    ∃ cand, choose_next_song pool st.used_ids st.used_years pick = some cand ∧
      st' = commitSingle st cand idx := by
  cases hch : choose_next_song pool st.used_ids st.used_years pick with
  | none =>
    rcases h with h | h <;> rw [playRound_none_eq _ hch] at h <;> cases h
  | some cand =>
    refine ⟨cand, rfl, ?_⟩
    rcases h with h | h <;> rw [playRound_place_eq idx hch] at h <;>
      split at h <;> cases h <;> rfl

/-- The state carried by a step result. -/
def StepResult.state : StepResult → SingleState
  | .next s => s
  | .deckCleared s => s
  | .gameOver s => s
  | .aborted s => s

theorem playRound_next_lives {pool : List Song} {pick : Nat} {inp : RoundInput}
    {st st' : SingleState} (h : playRound pool pick inp st = .next st') :
    0 < st'.lives := by
  cases hch : choose_next_song pool st.used_ids st.used_years pick with
  | none => rw [playRound_none_eq inp hch] at h; cases h
  | some cand =>
    cases inp with
    | quit => rw [playRound_quit_eq hch] at h; cases h
    | place idx =>
      rw [playRound_place_eq idx hch] at h
      split at h
      · cases h
      · rename_i hlt
        cases h
        omega

theorem playRound_deckCleared_state {pool : List Song} {pick : Nat}
    {inp : RoundInput} {st st' : SingleState}
    (h : playRound pool pick inp st = .deckCleared st') : st' = st := by
  cases hch : choose_next_song pool st.used_ids st.used_years pick with
  | none => rw [playRound_none_eq inp hch] at h; cases h; rfl
  | some cand =>
    cases inp with
    | quit => rw [playRound_quit_eq hch] at h; cases h
    | place idx =>
      rw [playRound_place_eq idx hch] at h
      split at h <;> cases h

theorem playRound_aborted_state {pool : List Song} {pick : Nat}
    {inp : RoundInput} {st st' : SingleState}
    (h : playRound pool pick inp st = .aborted st') : st' = st := by
  cases hch : choose_next_song pool st.used_ids st.used_years pick with
  | none => rw [playRound_none_eq inp hch] at h; cases h
  | some cand =>
    cases inp with
    | quit => rw [playRound_quit_eq hch] at h; cases h; rfl
    | place idx =>
      rw [playRound_place_eq idx hch] at h
      split at h <;> cases h

theorem commitSingle_InvS {st : SingleState} {cand : Song} (idx : Nat)
    (h : InvS st) (hyr : cand.year ∉ st.used_years) (hl : 0 < st.lives) :
    InvS (commitSingle st cand idx) := by
  obtain ⟨hsub, hnd, hl0, hl3⟩ := h
  refine ⟨?_, ?_, ?_, ?_⟩
  · intro s hs
    have hs' : s ∈ st.timeline ++ [cand] :=
      (sortByYear_perm (st.timeline ++ [cand])).mem_iff.mp hs
    rcases List.mem_append.mp hs' with h1 | h1
    · exact Finset.mem_insert_of_mem (hsub s h1)
    · simp only [List.mem_singleton] at h1
      subst h1
      exact Finset.mem_insert_self _ _
  · have hnd2 := commit_years_nodup hsub hnd hyr
    have hperm := (sortByYear_perm (st.timeline ++ [cand])).map fun s => s.year
    exact hperm.nodup_iff.mpr hnd2
  · simp only [commitSingle]
    split <;> omega
  · simp only [commitSingle]
    split <;> omega

/-- A later session state never has more lives, less score, or a shorter
timeline than an earlier one. -/
def SingleMono (a b : SingleState) : Prop :=
  b.lives ≤ a.lives ∧ a.score ≤ b.score ∧
    a.timeline.length ≤ b.timeline.length

theorem singleMono_refl (st : SingleState) : SingleMono st st :=
  ⟨le_refl _, le_refl _, le_refl _⟩

theorem singleMono_trans {a b c : SingleState}
    (h1 : SingleMono a b) (h2 : SingleMono b c) : SingleMono a c :=
  ⟨le_trans h2.1 h1.1, le_trans h1.2.1 h2.2.1, le_trans h1.2.2 h2.2.2⟩

theorem commitSingle_timeline_length (st : SingleState) (cand : Song)
    (idx : Nat) :
    (commitSingle st cand idx).timeline.length = st.timeline.length + 1 := by
  simp only [commitSingle]
  rw [sortByYear_length, List.length_append, List.length_singleton]

theorem commitSingle_mono (st : SingleState) (cand : Song) (idx : Nat) :
    SingleMono st (commitSingle st cand idx) := by
  refine ⟨?_, ?_, ?_⟩
  · simp only [commitSingle]
    split <;> omega
  · simp only [commitSingle]
    split <;> omega
  · rw [commitSingle_timeline_length]
    omega

theorem playRound_mono (pool : List Song) (pick : Nat) (inp : RoundInput)
    (st : SingleState) :
    SingleMono st (playRound pool pick inp st).state := by
  cases hch : choose_next_song pool st.used_ids st.used_years pick with
  | none => rw [playRound_none_eq inp hch]; exact singleMono_refl st
  | some cand =>
    cases inp with
    | quit => rw [playRound_quit_eq hch]; exact singleMono_refl st
    | place idx =>
      rw [playRound_place_eq idx hch]
      split <;> exact commitSingle_mono st cand idx

/-! ### Single-player session lemmas -/

theorem runSingle_cons (pool : List Song) (pick : Nat) (inp : RoundInput)
    (rest : List (Nat × RoundInput)) (st : SingleState) :
    runSingle pool ((pick, inp) :: rest) st =
      match playRound pool pick inp st with
      | .next st' => runSingle pool rest st'
      | .deckCleared st' => (st', .deckCleared)
      | .gameOver st' => (st', .gameOver)
      | .aborted st' => (st', .aborted) := rfl

theorem playRound_next_resolved {pool : List Song} {pick : Nat}
    {inp : RoundInput} {st st' : SingleState}
    (h : playRound pool pick inp st = .next st') :
    ∃ cand idx,
      choose_next_song pool st.used_ids st.used_years pick = some cand ∧
      inp = .place idx ∧ st' = commitSingle st cand idx := by
  cases hch : choose_next_song pool st.used_ids st.used_years pick with
  | none => rw [playRound_none_eq inp hch] at h; cases h
  | some cand =>
    cases inp with
    | quit => rw [playRound_quit_eq hch] at h; cases h
    | place idx =>
      rw [playRound_place_eq idx hch] at h
      split at h
      · cases h
      · cases h
        exact ⟨cand, idx, rfl, rfl, rfl⟩

theorem playRound_gameOver_resolved {pool : List Song} {pick : Nat}
    {inp : RoundInput} {st st' : SingleState}
    (h : playRound pool pick inp st = .gameOver st') :
    ∃ cand idx,
      choose_next_song pool st.used_ids st.used_years pick = some cand ∧
      inp = .place idx ∧ st' = commitSingle st cand idx := by
  cases hch : choose_next_song pool st.used_ids st.used_years pick with
  | none => rw [playRound_none_eq inp hch] at h; cases h
  | some cand =>
    cases inp with
    | quit => rw [playRound_quit_eq hch] at h; cases h
    | place idx =>
      rw [playRound_place_eq idx hch] at h
      split at h
      · cases h
        exact ⟨cand, idx, rfl, rfl, rfl⟩
      · cases h

theorem runSingle_InvS (pool : List Song) (script : List (Nat × RoundInput))
    (st : SingleState) (h : InvS st) (hl : 0 < st.lives) :
    InvS (runSingle pool script st).1 := by
  induction script generalizing st with
  | nil => exact h
  | cons hd rest ih =>
    obtain ⟨pick, inp⟩ := hd
    rw [runSingle_cons]
    cases hr : playRound pool pick inp st with
    | next st' =>
      obtain ⟨cand, idx, hch, hinp, hcommit⟩ := playRound_next_resolved hr
      have hfresh := choose_next_song_some hch
      have hinv' : InvS st' := by
        rw [hcommit]
        exact commitSingle_InvS idx h hfresh.2.2 hl
      exact ih st' hinv' (playRound_next_lives hr)
    | deckCleared st' =>
      rw [playRound_deckCleared_state hr]
      exact h
    | gameOver st' =>
      obtain ⟨cand, idx, hch, hinp, hcommit⟩ := playRound_gameOver_resolved hr
      have hfresh := choose_next_song_some hch
      rw [hcommit]
      exact commitSingle_InvS idx h hfresh.2.2 hl
    | aborted st' =>
      rw [playRound_aborted_state hr]
      exact h

theorem runSingle_mono (pool : List Song) (script : List (Nat × RoundInput))
    (st : SingleState) : SingleMono st (runSingle pool script st).1 := by
  induction script generalizing st with
  | nil => exact singleMono_refl st
  | cons hd rest ih =>
    obtain ⟨pick, inp⟩ := hd
    rw [runSingle_cons]
    have hm := playRound_mono pool pick inp st
    cases hr : playRound pool pick inp st with
    | next st' =>
      rw [hr] at hm
      exact singleMono_trans hm (ih st')
    | deckCleared st' => rw [hr] at hm; exact hm
    | gameOver st' => rw [hr] at hm; exact hm
    | aborted st' => rw [hr] at hm; exact hm

theorem runSingle_append_mono (pool : List Song)
    (s1 s2 : List (Nat × RoundInput)) (st : SingleState) :
    SingleMono (runSingle pool s1 st).1 (runSingle pool (s1 ++ s2) st).1 := by
  induction s1 generalizing st with
  | nil => exact runSingle_mono pool s2 st
  | cons hd t ih =>
    obtain ⟨pick, inp⟩ := hd
    rw [List.cons_append, runSingle_cons, runSingle_cons]
    cases hr : playRound pool pick inp st with
    | next st' => exact ih st'
    | deckCleared st' => exact singleMono_refl st'
    | gameOver st' => exact singleMono_refl st'
    | aborted st' => exact singleMono_refl st'

theorem initSingle_InvS (starter : Song) : InvS (initSingle starter) := by
  refine ⟨?_, ?_, ?_, ?_⟩
  · intro s hs
    simp only [initSingle, List.mem_singleton] at hs
    subst hs
    exact Finset.mem_singleton_self _
  · simp [initSingle]
  · simp only [initSingle]
    unfold MAX_LIVES
    omega
  · exact le_refl _

theorem initSingle_lives_pos (starter : Song) :
    0 < (initSingle starter).lives := by
  simp only [initSingle]
  unfold MAX_LIVES
  omega

/-! ### Two-player round unfolding -/

/-- The state committed by a resolved two-player round: the player to move is
`turnFix st`, and the candidate is committed exactly as in single player. -/
def commitTwo (st : TwoState) (cand : Song) (idx : Nat) : TwoState :=
  { timeline := sortByYear (st.timeline ++ [cand])
    used_ids := insert cand.track_id st.used_ids
    used_years := insert cand.year st.used_years
    lives := if is_correct_insertion st.timeline cand idx then st.lives
             else st.lives.set (turnFix st) (st.lives.getD (turnFix st) 0 - 1)
    scores := if is_correct_insertion st.timeline cand idx
              then st.scores.set (turnFix st) (st.scores.getD (turnFix st) 0 + 1)
              else st.scores
    current := turnFix st }

theorem turnFix_alive {st : TwoState}
    (hcur : 0 < st.lives.getD st.current 0) : turnFix st = st.current := by
  unfold turnFix
  rw [if_neg (by omega)]

theorem not_bothDead {st : TwoState} (hc2 : st.current < 2)
    (hcur : 0 < st.lives.getD st.current 0) :
    ¬(st.lives.getD 0 0 ≤ 0 ∧ st.lives.getD 1 0 ≤ 0) := by
  have hc01 : st.current = 0 ∨ st.current = 1 := by omega
  rcases hc01 with h | h <;> rw [h] at hcur <;> omega

theorem playRoundTwo_none_eq {pool : List Song} {pick : Nat} {st : TwoState}
    (inp : RoundInput)
    (hch : choose_next_song pool st.used_ids st.used_years pick = none) :
    playRoundTwo pool pick inp st = .deckCleared st := by
  unfold playRoundTwo
  rw [hch]

theorem playRoundTwo_bothOut_start_eq {pool : List Song} {pick : Nat}
    {st : TwoState} {cand : Song} (inp : RoundInput)
    (hch : choose_next_song pool st.used_ids st.used_years pick = some cand)
    (hb : st.lives.getD 0 0 ≤ 0 ∧ st.lives.getD 1 0 ≤ 0) :
    playRoundTwo pool pick inp st = .bothOut { st with current := turnFix st } := by
  unfold playRoundTwo
  rw [hch]
  simp only []
  rw [if_pos hb]

theorem playRoundTwo_quit_eq {pool : List Song} {pick : Nat} {st : TwoState}
    {cand : Song}
    (hch : choose_next_song pool st.used_ids st.used_years pick = some cand)
    (hnb : ¬(st.lives.getD 0 0 ≤ 0 ∧ st.lives.getD 1 0 ≤ 0)) :
    playRoundTwo pool pick .quit st = .aborted { st with current := turnFix st } := by
  unfold playRoundTwo
  rw [hch]
  simp only []
  rw [if_neg hnb]

theorem playRoundTwo_place_eq {pool : List Song} {pick : Nat} {st : TwoState}
    {cand : Song} (idx : Nat)
    (hch : choose_next_song pool st.used_ids st.used_years pick = some cand)
    (hnb : ¬(st.lives.getD 0 0 ≤ 0 ∧ st.lives.getD 1 0 ≤ 0)) :
    playRoundTwo pool pick (.place idx) st =
      if (commitTwo st cand idx).lives.getD 0 0 ≤ 0 ∧
         (commitTwo st cand idx).lives.getD 1 0 ≤ 0
      then .bothOut (commitTwo st cand idx)
      else .next { commitTwo st cand idx with
        current := next_player_alive (turnFix st)
          (commitTwo st cand idx).lives } := by
  unfold playRoundTwo commitTwo
  rw [hch]
  simp only []
  rw [if_neg hnb]

theorem playRoundTwo_deckCleared_state {pool : List Song} {pick : Nat}
    {inp : RoundInput} {st st' : TwoState}
    (h : playRoundTwo pool pick inp st = .deckCleared st') : st' = st := by
  cases hch : choose_next_song pool st.used_ids st.used_years pick with
  | none => rw [playRoundTwo_none_eq inp hch] at h; cases h; rfl
  | some cand =>
    by_cases hb : st.lives.getD 0 0 ≤ 0 ∧ st.lives.getD 1 0 ≤ 0
    · rw [playRoundTwo_bothOut_start_eq inp hch hb] at h; cases h
    · cases inp with
      | quit => rw [playRoundTwo_quit_eq hch hb] at h; cases h
      | place idx =>
        rw [playRoundTwo_place_eq idx hch hb] at h
        split at h <;> cases h

theorem playRoundTwo_aborted_state {pool : List Song} {pick : Nat}
    {inp : RoundInput} {st st' : TwoState}
    (h : playRoundTwo pool pick inp st = .aborted st') :
    st' = { st with current := turnFix st } := by
  cases hch : choose_next_song pool st.used_ids st.used_years pick with
  | none => rw [playRoundTwo_none_eq inp hch] at h; cases h
  | some cand =>
    by_cases hb : st.lives.getD 0 0 ≤ 0 ∧ st.lives.getD 1 0 ≤ 0
    · rw [playRoundTwo_bothOut_start_eq inp hch hb] at h; cases h
    · cases inp with
      | quit => rw [playRoundTwo_quit_eq hch hb] at h; cases h; rfl
      | place idx =>
        rw [playRoundTwo_place_eq idx hch hb] at h
        split at h <;> cases h

theorem playRoundTwo_next_resolved {pool : List Song} {pick : Nat}
    {inp : RoundInput} {st st' : TwoState}
    (h : playRoundTwo pool pick inp st = .next st') :
    ∃ cand idx,
      choose_next_song pool st.used_ids st.used_years pick = some cand ∧
      inp = .place idx ∧
      ¬(st.lives.getD 0 0 ≤ 0 ∧ st.lives.getD 1 0 ≤ 0) ∧
      ¬((commitTwo st cand idx).lives.getD 0 0 ≤ 0 ∧
        (commitTwo st cand idx).lives.getD 1 0 ≤ 0) ∧
      st' = { commitTwo st cand idx with
              current := next_player_alive (turnFix st)
                (commitTwo st cand idx).lives } := by
  cases hch : choose_next_song pool st.used_ids st.used_years pick with
  | none => rw [playRoundTwo_none_eq inp hch] at h; cases h
  | some cand =>
    by_cases hb : st.lives.getD 0 0 ≤ 0 ∧ st.lives.getD 1 0 ≤ 0
    · rw [playRoundTwo_bothOut_start_eq inp hch hb] at h; cases h
    · cases inp with
      | quit => rw [playRoundTwo_quit_eq hch hb] at h; cases h
      | place idx =>
        rw [playRoundTwo_place_eq idx hch hb] at h
        split at h
        · cases h
        · rename_i hnb2
          cases h
          exact ⟨cand, idx, rfl, rfl, hb, hnb2, rfl⟩

theorem playRoundTwo_bothOut_resolved {pool : List Song} {pick : Nat}
    {inp : RoundInput} {st st' : TwoState}
    (h : playRoundTwo pool pick inp st = .bothOut st') :
    (st.lives.getD 0 0 ≤ 0 ∧ st.lives.getD 1 0 ≤ 0 ∧
      st' = { st with current := turnFix st }) ∨
    (∃ cand idx,
      choose_next_song pool st.used_ids st.used_years pick = some cand ∧
      inp = .place idx ∧
      (commitTwo st cand idx).lives.getD 0 0 ≤ 0 ∧
      (commitTwo st cand idx).lives.getD 1 0 ≤ 0 ∧
      st' = commitTwo st cand idx) := by
  cases hch : choose_next_song pool st.used_ids st.used_years pick with
  | none => rw [playRoundTwo_none_eq inp hch] at h; cases h
  | some cand =>
    by_cases hb : st.lives.getD 0 0 ≤ 0 ∧ st.lives.getD 1 0 ≤ 0
    · rw [playRoundTwo_bothOut_start_eq inp hch hb] at h
      cases h
      exact Or.inl ⟨hb.1, hb.2, rfl⟩
    · cases inp with
      | quit => rw [playRoundTwo_quit_eq hch hb] at h; cases h
      | place idx =>
        rw [playRoundTwo_place_eq idx hch hb] at h
        split at h
        · rename_i hb2
          cases h
          exact Or.inr ⟨cand, idx, rfl, rfl, hb2.1, hb2.2, rfl⟩
        · cases h

/-! ### Two-player invariant -/

theorem getD_set_same (l : List Int) (j : Nat) (v : Int) (h : j < l.length) :
    (l.set j v).getD j 0 = v := by
  simp [List.getD_eq_getElem?_getD, List.getElem?_set_self, h]

theorem getD_set_diff (l : List Int) {i j : Nat} (h : j ≠ i) (v : Int) :
    (l.set j v).getD i 0 = l.getD i 0 := by
  simp [List.getD_eq_getElem?_getD, List.getElem?_set_ne, h]

theorem getD_set_le (l : List Int) (j : Nat) {c : Int}
    (hc : c ≤ l.getD j 0) (i : Nat) :
    (l.set j c).getD i 0 ≤ l.getD i 0 := by
  by_cases hij : j = i
  · subst hij
    by_cases hlen : j < l.length
    · rw [getD_set_same l j c hlen]
      exact hc
    · rw [List.set_eq_of_length_le (by omega)]
  · rw [getD_set_diff l hij]

theorem getD_set_ge (l : List Int) (j : Nat) {c : Int}
    (hc : l.getD j 0 ≤ c) (i : Nat) :
    l.getD i 0 ≤ (l.set j c).getD i 0 := by
  by_cases hij : j = i
  · subst hij
    by_cases hlen : j < l.length
    · rw [getD_set_same l j c hlen]
      exact hc
    · rw [List.set_eq_of_length_le (by omega)]
  · rw [getD_set_diff l hij]

/-- Data invariant of a two-player session state: the Python lists `lives`
and `scores` have two entries, the current index is 0 or 1, every placed
year is marked used, placed years are pairwise distinct, and each player's
lives stay within `[0, MAX_LIVES]`. -/
def InvT (st : TwoState) : Prop :=
  st.lives.length = 2 ∧ st.scores.length = 2 ∧ st.current < 2 ∧
  (∀ s ∈ st.timeline, s.year ∈ st.used_years) ∧
  (st.timeline.map fun s => s.year).Nodup ∧
  (∀ i, 0 ≤ st.lives.getD i 0 ∧ st.lives.getD i 0 ≤ MAX_LIVES)

theorem next_player_alive_lt_two {c : Nat} (hc : c < 2) (lives : List Int) :
    next_player_alive c lives < 2 := by
  unfold next_player_alive
  simp only []
  split <;> omega

theorem next_player_alive_alive {c : Nat} (hc : c < 2) {lives : List Int}
    (hnb : ¬(lives.getD 0 0 ≤ 0 ∧ lives.getD 1 0 ≤ 0)) :
    0 < lives.getD (next_player_alive c lives) 0 := by
  unfold next_player_alive
  simp only []
  split
  · assumption
  · rename_i hother
    have hc01 : c = 0 ∨ c = 1 := by omega
    rcases hc01 with rfl | rfl
    · simp only [Nat.sub_zero] at hother
      omega
    · simp only [Nat.sub_self] at hother
      omega

theorem commitTwo_InvT {st : TwoState} {cand : Song} (idx : Nat)
    (h : InvT st) (hcur : 0 < st.lives.getD st.current 0)
    (hyr : cand.year ∉ st.used_years) :
    InvT (commitTwo st cand idx) := by
  obtain ⟨hl2, hs2, hc2, hsub, hnd, hbnd⟩ := h
  have htf : turnFix st = st.current := turnFix_alive hcur
  refine ⟨?_, ?_, ?_, ?_, ?_, ?_⟩
  · simp only [commitTwo]
    split
    · exact hl2
    · rw [List.length_set]
      exact hl2
  · simp only [commitTwo]
    split
    · rw [List.length_set]
      exact hs2
    · exact hs2
  · simp only [commitTwo]
    rw [htf]
    exact hc2
  · intro s hs
    have hs' : s ∈ st.timeline ++ [cand] :=
      (sortByYear_perm (st.timeline ++ [cand])).mem_iff.mp hs
    rcases List.mem_append.mp hs' with h1 | h1
    · exact Finset.mem_insert_of_mem (hsub s h1)
    · simp only [List.mem_singleton] at h1
      subst h1
      exact Finset.mem_insert_self _ _
  · have hnd2 := commit_years_nodup hsub hnd hyr
    have hperm := (sortByYear_perm (st.timeline ++ [cand])).map fun s => s.year
    exact hperm.nodup_iff.mpr hnd2
  · intro i
    simp only [commitTwo]
    split
    · exact hbnd i
    · rw [htf]
      by_cases hic : st.current = i
      · subst hic
        rw [getD_set_same st.lives st.current _ (by omega)]
        have h1 := hbnd st.current
        omega
      · rw [getD_set_diff st.lives hic]
        exact hbnd i

/-! ### Two-player session lemmas -/

theorem runTwo_cons (pool : List Song) (pick : Nat) (inp : RoundInput)
    (rest : List (Nat × RoundInput)) (st : TwoState) :
    runTwo pool ((pick, inp) :: rest) st =
      match playRoundTwo pool pick inp st with
      | .next st' => runTwo pool rest st'
      | .deckCleared st' => (st', .deckCleared (declareWinner st'.scores))
      | .bothOut st' => (st', .allEliminated (declareWinner st'.scores))
      | .aborted st' => (st', .aborted) := rfl

theorem runTwo_InvT (pool : List Song) (script : List (Nat × RoundInput))
    (st : TwoState) (h : InvT st)
    (hcur : 0 < st.lives.getD st.current 0) :
    InvT (runTwo pool script st).1 := by
  induction script generalizing st with
  | nil => exact h
  | cons hd rest ih =>
    obtain ⟨pick, inp⟩ := hd
    rw [runTwo_cons]
    cases hr : playRoundTwo pool pick inp st with
    | next st' =>
      obtain ⟨cand, idx, hch, hinp, hnb1, hnb2, hst'⟩ :=
        playRoundTwo_next_resolved hr
      have hfresh := choose_next_song_some hch
      have hcomm : InvT (commitTwo st cand idx) :=
        commitTwo_InvT idx h hcur hfresh.2.2
      have htf : turnFix st = st.current := turnFix_alive hcur
      have hlt2 : turnFix st < 2 := by rw [htf]; exact h.2.2.1
      have hinv' : InvT st' := by
        rw [hst']
        exact ⟨hcomm.1, hcomm.2.1, next_player_alive_lt_two hlt2 _,
          hcomm.2.2.2.1, hcomm.2.2.2.2.1, hcomm.2.2.2.2.2⟩
      have halive : 0 < st'.lives.getD st'.current 0 := by
        rw [hst']
        exact next_player_alive_alive hlt2 hnb2
      exact ih st' hinv' halive
    | deckCleared st' =>
      rw [playRoundTwo_deckCleared_state hr]
      exact h
    | bothOut st' =>
      rcases playRoundTwo_bothOut_resolved hr with ⟨hb0, hb1, _⟩ | hres
      · exact absurd ⟨hb0, hb1⟩ (not_bothDead h.2.2.1 hcur)
      · obtain ⟨cand, idx, hch, hinp, hd0, hd1, hst'⟩ := hres
        have hfresh := choose_next_song_some hch
        rw [hst']
        exact commitTwo_InvT idx h hcur hfresh.2.2
    | aborted st' =>
      have hst' := playRoundTwo_aborted_state hr
      rw [hst', turnFix_alive hcur]
      exact h

/-- Per-player monotonicity between two session states: lives never rise,
scores never fall, the timeline never shrinks. -/
def TwoMono (a b : TwoState) : Prop :=
  (∀ i, b.lives.getD i 0 ≤ a.lives.getD i 0) ∧
  (∀ i, a.scores.getD i 0 ≤ b.scores.getD i 0) ∧
  a.timeline.length ≤ b.timeline.length

theorem twoMono_refl (st : TwoState) : TwoMono st st :=
  ⟨fun _ => le_refl _, fun _ => le_refl _, le_refl _⟩

theorem twoMono_trans {a b c : TwoState}
    (h1 : TwoMono a b) (h2 : TwoMono b c) : TwoMono a c :=
  ⟨fun i => le_trans (h2.1 i) (h1.1 i), fun i => le_trans (h1.2.1 i) (h2.2.1 i),
    le_trans (h1.2.2) (h2.2.2)⟩

theorem commitTwo_mono (st : TwoState) (cand : Song) (idx : Nat) :
    TwoMono st (commitTwo st cand idx) := by
  refine ⟨?_, ?_, ?_⟩
  · intro i
    simp only [commitTwo]
    split
    · exact le_refl _
    · exact getD_set_le st.lives (turnFix st) (by omega) i
  · intro i
    simp only [commitTwo]
    split
    · exact getD_set_ge st.scores (turnFix st) (by omega) i
    · exact le_refl _
  · simp only [commitTwo]
    rw [sortByYear_length, List.length_append, List.length_singleton]
    omega

/-- The state carried by a two-player step result. -/
def TwoStepResult.state : TwoStepResult → TwoState
  | .next s => s
  | .deckCleared s => s
  | .bothOut s => s
  | .aborted s => s

theorem playRoundTwo_mono (pool : List Song) (pick : Nat) (inp : RoundInput)
    (st : TwoState) :
    TwoMono st (playRoundTwo pool pick inp st).state := by
  cases hr : playRoundTwo pool pick inp st with
  | next st' =>
    obtain ⟨cand, idx, hch, hinp, hnb1, hnb2, hst'⟩ :=
      playRoundTwo_next_resolved hr
    have := commitTwo_mono st cand idx
    rw [hst']
    exact this
  | deckCleared st' =>
    rw [playRoundTwo_deckCleared_state hr]
    exact twoMono_refl st
  | bothOut st' =>
    rcases playRoundTwo_bothOut_resolved hr with ⟨_, _, hst'⟩ | hres
    · rw [hst']
      exact twoMono_refl st
    · obtain ⟨cand, idx, hch, hinp, hd0, hd1, hst'⟩ := hres
      rw [hst']
      exact commitTwo_mono st cand idx
  | aborted st' =>
    rw [playRoundTwo_aborted_state hr]
    exact twoMono_refl st

theorem runTwo_mono (pool : List Song) (script : List (Nat × RoundInput))
    (st : TwoState) : TwoMono st (runTwo pool script st).1 := by
  induction script generalizing st with
  | nil => exact twoMono_refl st
  | cons hd rest ih =>
    obtain ⟨pick, inp⟩ := hd
    rw [runTwo_cons]
    have hm := playRoundTwo_mono pool pick inp st
    cases hr : playRoundTwo pool pick inp st with
    | next st' =>
      rw [hr] at hm
      exact twoMono_trans hm (ih st')
    | deckCleared st' => rw [hr] at hm; exact hm
    | bothOut st' => rw [hr] at hm; exact hm
    | aborted st' => rw [hr] at hm; exact hm

theorem runTwo_append_mono (pool : List Song)
    (s1 s2 : List (Nat × RoundInput)) (st : TwoState) :
    TwoMono (runTwo pool s1 st).1 (runTwo pool (s1 ++ s2) st).1 := by
  induction s1 generalizing st with
  | nil => exact runTwo_mono pool s2 st
  | cons hd t ih =>
    obtain ⟨pick, inp⟩ := hd
    rw [List.cons_append, runTwo_cons, runTwo_cons]
    cases hr : playRoundTwo pool pick inp st with
    | next st' => exact ih st'
    | deckCleared st' => exact twoMono_refl st'
    | bothOut st' => exact twoMono_refl st'
    | aborted st' => exact twoMono_refl st'

theorem initTwo_InvT (starter : Song) : InvT (initTwo starter) := by
  refine ⟨rfl, rfl, by simp [initTwo], ?_, ?_, ?_⟩
  · intro s hs
    simp only [initTwo, List.mem_singleton] at hs
    subst hs
    exact Finset.mem_singleton_self _
  · simp [initTwo]
  · intro i
    match i with
    | 0 => exact ⟨by simp [initTwo, MAX_LIVES], by simp [initTwo, MAX_LIVES]⟩
    | 1 => exact ⟨by simp [initTwo, MAX_LIVES], by simp [initTwo, MAX_LIVES]⟩
    | n + 2 => exact ⟨by simp [initTwo, MAX_LIVES], by simp [initTwo, MAX_LIVES]⟩

theorem initTwo_alive (starter : Song) :
    0 < (initTwo starter).lives.getD (initTwo starter).current 0 := by
  unfold initTwo MAX_LIVES
  simp

/-! ### Sample songs for concrete evaluations -/

def songA : Song := ⟨Sum.inl 1, "A", "artistA", 1990, none, none, none⟩

def songB : Song := ⟨Sum.inl 2, "B", "artistB", 2000, none, none, none⟩

def songC : Song := ⟨Sum.inl 3, "C", "artistC", 1995, none, none, none⟩

def songD : Song := ⟨Sum.inl 4, "D", "artistD", 1991, none, none, none⟩

/-! ### Claims -/

/-- C1: for every timeline `T`, candidate `c`, and insertion index
`i ∈ [0, len T]`, `is_correct_insertion` returns true iff splicing `c` at
position `i` into the year-sorted projection of `T` yields a year sequence
that is strictly increasing (equivalently: equal to its own sorted form and
duplicate-free). -/
theorem claim_C1 (T : List Song) (c : Song) (i : Nat) (hi : i ≤ T.length) :
    is_correct_insertion T c (i : Int) = true ↔
      (((sortByYear T).take i ++ [c] ++ (sortByYear T).drop i).map
        fun s => s.year).Pairwise (· < ·) := by
  have hk : pySliceIdx (sortByYear T).length (i : Int) = i := by
    unfold pySliceIdx
    rw [if_neg (by omega), sortByYear_length]
    omega
  unfold is_correct_insertion
  simp only []
  rw [hk]
  exact sortedNodupCheck_iff _

theorem claim_C1_witness :
    (1 ≤ ([songA, songB] : List Song).length) ∧
    (is_correct_insertion [songA, songB] songC ((1 : Nat) : Int) = true ↔
      (((sortByYear [songA, songB]).take 1 ++ [songC] ++
        (sortByYear [songA, songB]).drop 1).map
        fun s => s.year).Pairwise (· < ·)) :=
  ⟨by decide, claim_C1 [songA, songB] songC 1 (by decide)⟩

/-- C3: the candidate selector never returns a song whose id or year is
already used, and it returns `none` exactly when every song of the pool has
a used id or a used year. -/
theorem claim_C3 (pool : List Song) (used_ids : Finset TrackId)
    (used_years : Finset Int) (pick : Nat) :
    (∀ s, choose_next_song pool used_ids used_years pick = some s →
      s.track_id ∉ used_ids ∧ s.year ∉ used_years) ∧
    (choose_next_song pool used_ids used_years pick = none ↔
      ∀ s ∈ pool, s.track_id ∈ used_ids ∨ s.year ∈ used_years) :=
  ⟨fun _ h => (choose_next_song_some h).2,
   choose_next_song_none_iff pool used_ids used_years pick⟩

theorem claim_C3_witness :
    songB.track_id ∉ ({songA.track_id} : Finset TrackId) ∧
    songB.year ∉ ({songA.year} : Finset Int) :=
  (claim_C3 [songA, songB] {songA.track_id} {songA.year} 0).1 songB (by decide)

theorem is_correct_insertion_idx_congr (timeline : List Song)
    (new_song : Song) {i j : Int}
    (h : pySliceIdx (sortByYear timeline).length i =
         pySliceIdx (sortByYear timeline).length j) :
    is_correct_insertion timeline new_song i =
      is_correct_insertion timeline new_song j := by
  unfold is_correct_insertion
  simp only []
  rw [h]

/-- C10: the validator is total over all integer insertion indices
(by construction of the embedding, mirroring Python slices, which never
raise): any index at or above `len(timeline)` behaves exactly like inserting
at the end, and a negative index is interpreted by Python slice semantics —
`i < 0` behaves like the clamped position `len + i` counted from the end,
and in particular `-1` splices the candidate just before the last sorted
entry. -/
theorem claim_C10 (timeline : List Song) (new_song : Song) :
    (∀ i : Int, (timeline.length : Int) ≤ i →
      is_correct_insertion timeline new_song i =
        is_correct_insertion timeline new_song (timeline.length : Int)) ∧
    (∀ i : Int, i < 0 →
      is_correct_insertion timeline new_song i =
        is_correct_insertion timeline new_song
          ((((timeline.length : Int) + i).toNat : Nat) : Int)) ∧
    (timeline ≠ [] →
      is_correct_insertion timeline new_song (-1) =
        is_correct_insertion timeline new_song ((timeline.length : Int) - 1)) := by
  refine ⟨?_, ?_, ?_⟩
  · intro i hi
    apply is_correct_insertion_idx_congr
    unfold pySliceIdx
    rw [sortByYear_length, if_neg (by omega), if_neg (by omega)]
    omega
  · intro i hi
    apply is_correct_insertion_idx_congr
    unfold pySliceIdx
    rw [sortByYear_length, if_pos hi, if_neg (by omega)]
    omega
  · intro hne
    have hlen : 0 < timeline.length := List.length_pos.mpr hne
    apply is_correct_insertion_idx_congr
    unfold pySliceIdx
    rw [sortByYear_length, if_pos (by omega), if_neg (by omega)]
    omega

theorem claim_C10_witness :
    is_correct_insertion [songA, songB] songC (-1) =
      is_correct_insertion [songA, songB] songC
        ((([songA, songB] : List Song).length : Int) - 1) :=
  (claim_C10 [songA, songB] songC).2.2 (by decide)

/-- C6: for every non-empty timeline, the allowed insertion positions always
include 0 (before the first entry) and `len(timeline)` (after the last), and
include an intermediate position `j` between two adjacent sorted entries iff
the difference of their years exceeds 1 — in particular no position is
offered between entries whose years differ by exactly 1. -/
theorem claim_C6 (timeline : List Song) (h : timeline ≠ []) :
    0 ∈ allowed_positions timeline ∧
    timeline.length ∈ allowed_positions timeline ∧
    ∀ j, 1 ≤ j → j ≤ timeline.length - 1 →
      (j ∈ allowed_positions timeline ↔
        1 < ((sortByYear timeline).getD j default).year -
            ((sortByYear timeline).getD (j - 1) default).year) := by
  have hlen : 0 < timeline.length := List.length_pos.mpr h
  have hslen := sortByYear_length timeline
  refine ⟨?_, ?_, ?_⟩
  · simp [allowed_positions]
  · have hmem : timeline.length ∈ [(sortByYear timeline).length] := by
      rw [hslen]
      exact List.mem_singleton_self _
    simp only [allowed_positions, List.mem_append]
    exact Or.inr hmem
  · intro j h1 hj
    constructor
    · intro hmem
      simp only [allowed_positions, List.mem_append, List.mem_singleton,
        List.mem_map, List.mem_filter, List.mem_range] at hmem
      rcases hmem with (h0 | ⟨i, ⟨hir, hpi⟩, hij⟩) | hL
      · omega
      · rw [decide_eq_true_eq] at hpi
        have hieq : i = j - 1 := by omega
        subst hieq
        have hsucc : j - 1 + 1 = j := by omega
        rw [hsucc] at hpi
        exact hpi
      · omega
    · intro hgap
      simp only [allowed_positions, List.mem_append, List.mem_singleton,
        List.mem_map, List.mem_filter, List.mem_range]
      refine Or.inl (Or.inr ⟨j - 1, ⟨by omega, ?_⟩, by omega⟩)
      rw [decide_eq_true_eq]
      have hsucc : j - 1 + 1 = j := by omega
      rw [hsucc]
      exact hgap

theorem claim_C6_witness :
    (0 ∈ allowed_positions [songA, songB]) ∧
    (1 ∈ allowed_positions [songA, songB] ↔
      1 < ((sortByYear [songA, songB]).getD 1 default).year -
          ((sortByYear [songA, songB]).getD 0 default).year) ∧
    (1 ∈ allowed_positions [songA, songD] ↔
      1 < ((sortByYear [songA, songD]).getD 1 default).year -
          ((sortByYear [songA, songD]).getD 0 default).year) :=
  ⟨(claim_C6 [songA, songB] (by decide)).1,
   (claim_C6 [songA, songB] (by decide)).2.2 1 (by decide) (by decide),
   (claim_C6 [songA, songD] (by decide)).2.2 1 (by decide) (by decide)⟩

theorem commitTwo_timeline_length (st : TwoState) (cand : Song) (idx : Nat) :
    (commitTwo st cand idx).timeline.length = st.timeline.length + 1 := by
  simp only [commitTwo]
  rw [sortByYear_length, List.length_append, List.length_singleton]

/-- C2: at every point of a session (after the seed placement and after every
committed round) the year-sorted projection of the timeline is strictly
increasing and duplicate-free, every resolved round — including the
two-player round whose wrong placement eliminates the last living player —
grows the timeline by exactly one entry, and the timeline never shrinks as a
session extends. -/
theorem claim_C2 :
    (∀ (pool : List Song) (starter : Song) (script : List (Nat × RoundInput)),
      ((sortByYear (runSingle pool script (initSingle starter)).1.timeline).map
        fun s => s.year).Pairwise (· < ·)) ∧
    (∀ (pool : List Song) (starter : Song) (script : List (Nat × RoundInput)),
      ((sortByYear (runTwo pool script (initTwo starter)).1.timeline).map
        fun s => s.year).Pairwise (· < ·)) ∧
    (∀ (pool : List Song) (pick idx : Nat) (st st' : SingleState),
      (playRound pool pick (.place idx) st = .next st' ∨
       playRound pool pick (.place idx) st = .gameOver st') →
      st'.timeline.length = st.timeline.length + 1) ∧
    (∀ (pool : List Song) (pick : Nat) (inp : RoundInput) (st st' : TwoState),
      playRoundTwo pool pick inp st = .next st' →
      st'.timeline.length = st.timeline.length + 1) ∧
    (∀ (pool : List Song) (pick : Nat) (inp : RoundInput) (st st' : TwoState),
      ¬(st.lives.getD 0 0 ≤ 0 ∧ st.lives.getD 1 0 ≤ 0) →
      playRoundTwo pool pick inp st = .bothOut st' →
      st'.timeline.length = st.timeline.length + 1) ∧
    (∀ (pool : List Song) (starter : Song) (s1 s2 : List (Nat × RoundInput)),
      (runSingle pool s1 (initSingle starter)).1.timeline.length ≤
        (runSingle pool (s1 ++ s2) (initSingle starter)).1.timeline.length) ∧
    (∀ (pool : List Song) (starter : Song) (s1 s2 : List (Nat × RoundInput)),
      (runTwo pool s1 (initTwo starter)).1.timeline.length ≤
        (runTwo pool (s1 ++ s2) (initTwo starter)).1.timeline.length) := by
  refine ⟨?_, ?_, ?_, ?_, ?_, ?_, ?_⟩
  · intro pool starter script
    have hinv := runSingle_InvS pool script (initSingle starter)
      (initSingle_InvS starter) (initSingle_lives_pos starter)
    exact List.pairwise_map.mpr (sortByYear_strict _ hinv.2.1)
  · intro pool starter script
    have hinv := runTwo_InvT pool script (initTwo starter)
      (initTwo_InvT starter) (initTwo_alive starter)
    exact List.pairwise_map.mpr (sortByYear_strict _ hinv.2.2.2.2.1)
  · intro pool pick idx st st' h
    obtain ⟨cand, hch, hcommit⟩ := playRound_resolved h
    rw [hcommit]
    exact commitSingle_timeline_length st cand idx
  · intro pool pick inp st st' h
    obtain ⟨cand, idx, hch, hinp, hnb1, hnb2, hst'⟩ :=
      playRoundTwo_next_resolved h
    rw [hst']
    exact commitTwo_timeline_length st cand idx
  · intro pool pick inp st st' hnb h
    rcases playRoundTwo_bothOut_resolved h with ⟨hb0, hb1, _⟩ | hres
    · exact absurd ⟨hb0, hb1⟩ hnb
    · obtain ⟨cand, idx, hch, hinp, hd0, hd1, hst'⟩ := hres
      rw [hst']
      exact commitTwo_timeline_length st cand idx
  · intro pool starter s1 s2
    exact (runSingle_append_mono pool s1 s2 (initSingle starter)).2.2
  · intro pool starter s1 s2
    exact (runTwo_append_mono pool s1 s2 (initTwo starter)).2.2

theorem claim_C2_witness :
    (commitSingle (initSingle songA) songB 1).timeline.length =
      (initSingle songA).timeline.length + 1 := by
  have hch : choose_next_song [songA, songB] (initSingle songA).used_ids
      (initSingle songA).used_years 0 = some songB := by decide
  have hlv : (initSingle songA).lives = 3 := rfl
  have hne : ¬((commitSingle (initSingle songA) songB 1).lives ≤ 0) := by
    simp only [commitSingle]
    split <;> omega
  exact claim_C2.2.2.1 [songA, songB] 0 1 (initSingle songA) _
    (Or.inl (by rw [playRound_place_eq 1 hch, if_neg hne]))

theorem runTwo_alive (pool : List Song) (script : List (Nat × RoundInput))
    (st : TwoState) (h : InvT st)
    (hcur : 0 < st.lives.getD st.current 0)
    (hprog : (runTwo pool script st).2 = .inProgress) :
    0 < (runTwo pool script st).1.lives.getD
        (runTwo pool script st).1.current 0 := by
  induction script generalizing st with
  | nil => exact hcur
  | cons hd rest ih =>
    obtain ⟨pick, inp⟩ := hd
    rw [runTwo_cons] at hprog ⊢
    cases hr : playRoundTwo pool pick inp st with
    | next st' =>
      rw [hr] at hprog
      obtain ⟨cand, idx, hch, hinp, hnb1, hnb2, hst'⟩ :=
        playRoundTwo_next_resolved hr
      have hfresh := choose_next_song_some hch
      have hcomm : InvT (commitTwo st cand idx) :=
        commitTwo_InvT idx h hcur hfresh.2.2
      have htf : turnFix st = st.current := turnFix_alive hcur
      have hlt2 : turnFix st < 2 := by rw [htf]; exact h.2.2.1
      have hinv' : InvT st' := by
        rw [hst']
        exact ⟨hcomm.1, hcomm.2.1, next_player_alive_lt_two hlt2 _,
          hcomm.2.2.2.1, hcomm.2.2.2.2.1, hcomm.2.2.2.2.2⟩
      have halive : 0 < st'.lives.getD st'.current 0 := by
        rw [hst']
        exact next_player_alive_alive hlt2 hnb2
      exact ih st' hinv' halive hprog
    | deckCleared st' =>
      rw [hr] at hprog
      cases hprog
    | bothOut st' =>
      rw [hr] at hprog
      cases hprog
    | aborted st' =>
      rw [hr] at hprog
      cases hprog

/-- C4: two-player turn rotation never hands the turn to an eliminated
player while the other is active: the rotation helper always selects a
living player when one exists; in any in-progress session the player to
move is alive; if the player to move were already eliminated with the other
player active, the turn-correction advances to the other player; and when
neither player is active a drawn round ends the session with outcome
"all players eliminated". -/
theorem claim_C4 :
    (∀ (c : Nat) (lives : List Int), c < 2 →
      ¬(lives.getD 0 0 ≤ 0 ∧ lives.getD 1 0 ≤ 0) →
      0 < lives.getD (next_player_alive c lives) 0) ∧
    (∀ (pool : List Song) (starter : Song) (script : List (Nat × RoundInput)),
      (runTwo pool script (initTwo starter)).2 = .inProgress →
      0 < (runTwo pool script (initTwo starter)).1.lives.getD
            (runTwo pool script (initTwo starter)).1.current 0) ∧
    (∀ st : TwoState, st.lives.getD st.current 0 ≤ 0 →
      0 < st.lives.getD (1 - st.current) 0 →
      turnFix st = 1 - st.current) ∧
    (∀ (pool : List Song) (pick : Nat) (inp : RoundInput) (st : TwoState)
      (cand : Song) (rest : List (Nat × RoundInput)),
      choose_next_song pool st.used_ids st.used_years pick = some cand →
      st.lives.getD 0 0 ≤ 0 → st.lives.getD 1 0 ≤ 0 →
      (runTwo pool ((pick, inp) :: rest) st).2 =
        .allEliminated (declareWinner st.scores)) := by
  refine ⟨?_, ?_, ?_, ?_⟩
  · intro c lives hc hnb
    exact next_player_alive_alive hc hnb
  · intro pool starter script hprog
    exact runTwo_alive pool script (initTwo starter) (initTwo_InvT starter)
      (initTwo_alive starter) hprog
  · intro st hdead halive
    unfold turnFix
    rw [if_pos hdead]
    unfold next_player_alive
    simp only []
    rw [if_pos halive]
  · intro pool pick inp st cand rest hch h0 h1
    rw [runTwo_cons, playRoundTwo_bothOut_start_eq inp hch ⟨h0, h1⟩]

theorem claim_C4_witness :
    (0 < ([0, 3] : List Int).getD (next_player_alive 0 [0, 3]) 0) ∧
    turnFix ⟨[], ∅, ∅, [0, 3], [0, 0], 0⟩ = 1 :=
  ⟨claim_C4.1 0 [0, 3] (by decide) (by decide),
   claim_C4.2.2.1 ⟨[], ∅, ∅, [0, 3], [0, 0], 0⟩ (by decide) (by decide)⟩

/-- C5: across a session every player's lives are monotonically
non-increasing and stay within `[0, MAX_LIVES]`, scores are monotonically
non-decreasing, every resolved round — including the two-player round whose
wrong placement eliminates the last living player — raises the scoring
player's score by exactly 1 on a correct placement and leaves it unchanged
(losing one life) otherwise, and once lives hit 0 they never change again. -/
theorem claim_C5 :
    (∀ (pool : List Song) (starter : Song) (script : List (Nat × RoundInput)),
      0 ≤ (runSingle pool script (initSingle starter)).1.lives ∧
      (runSingle pool script (initSingle starter)).1.lives ≤ MAX_LIVES) ∧
    (∀ (pool : List Song) (starter : Song) (s1 s2 : List (Nat × RoundInput)),
      (runSingle pool (s1 ++ s2) (initSingle starter)).1.lives ≤
        (runSingle pool s1 (initSingle starter)).1.lives ∧
      (runSingle pool s1 (initSingle starter)).1.score ≤
        (runSingle pool (s1 ++ s2) (initSingle starter)).1.score) ∧
    (∀ (pool : List Song) (pick idx : Nat) (st st' : SingleState),
      (playRound pool pick (.place idx) st = .next st' ∨
       playRound pool pick (.place idx) st = .gameOver st') →
      ∃ cand,
        choose_next_song pool st.used_ids st.used_years pick = some cand ∧
        ((is_correct_insertion st.timeline cand (idx : Int) = true ∧
          st'.score = st.score + 1 ∧ st'.lives = st.lives) ∨
         (is_correct_insertion st.timeline cand (idx : Int) = false ∧
          st'.score = st.score ∧ st'.lives = st.lives - 1))) ∧
    (∀ (pool : List Song) (pick : Nat) (inp : RoundInput) (st st' : TwoState),
      playRoundTwo pool pick inp st = .next st' →
      ∃ cand idx, inp = .place idx ∧
        choose_next_song pool st.used_ids st.used_years pick = some cand ∧
        ((is_correct_insertion st.timeline cand (idx : Int) = true ∧
          st'.scores = st.scores.set (turnFix st)
            (st.scores.getD (turnFix st) 0 + 1) ∧
          st'.lives = st.lives) ∨
         (is_correct_insertion st.timeline cand (idx : Int) = false ∧
          st'.scores = st.scores ∧
          st'.lives = st.lives.set (turnFix st)
            (st.lives.getD (turnFix st) 0 - 1)))) ∧
    (∀ (pool : List Song) (pick : Nat) (inp : RoundInput) (st st' : TwoState),
      ¬(st.lives.getD 0 0 ≤ 0 ∧ st.lives.getD 1 0 ≤ 0) →
      playRoundTwo pool pick inp st = .bothOut st' →
      ∃ cand idx, inp = .place idx ∧
        choose_next_song pool st.used_ids st.used_years pick = some cand ∧
        ((is_correct_insertion st.timeline cand (idx : Int) = true ∧
          st'.scores = st.scores.set (turnFix st)
            (st.scores.getD (turnFix st) 0 + 1) ∧
          st'.lives = st.lives) ∨
         (is_correct_insertion st.timeline cand (idx : Int) = false ∧
          st'.scores = st.scores ∧
          st'.lives = st.lives.set (turnFix st)
            (st.lives.getD (turnFix st) 0 - 1)))) ∧
    (∀ (pool : List Song) (starter : Song) (script : List (Nat × RoundInput))
      (i : Nat),
      0 ≤ (runTwo pool script (initTwo starter)).1.lives.getD i 0 ∧
      (runTwo pool script (initTwo starter)).1.lives.getD i 0 ≤ MAX_LIVES) ∧
    (∀ (pool : List Song) (starter : Song) (s1 s2 : List (Nat × RoundInput))
      (i : Nat),
      (runTwo pool (s1 ++ s2) (initTwo starter)).1.lives.getD i 0 ≤
        (runTwo pool s1 (initTwo starter)).1.lives.getD i 0 ∧
      (runTwo pool s1 (initTwo starter)).1.scores.getD i 0 ≤
        (runTwo pool (s1 ++ s2) (initTwo starter)).1.scores.getD i 0) ∧
    (∀ (pool : List Song) (starter : Song) (s1 s2 : List (Nat × RoundInput)),
      (runSingle pool s1 (initSingle starter)).1.lives = 0 →
      (runSingle pool (s1 ++ s2) (initSingle starter)).1.lives = 0) ∧
    (∀ (pool : List Song) (starter : Song) (s1 s2 : List (Nat × RoundInput))
      (i : Nat),
      (runTwo pool s1 (initTwo starter)).1.lives.getD i 0 = 0 →
      (runTwo pool (s1 ++ s2) (initTwo starter)).1.lives.getD i 0 = 0) := by
  refine ⟨?_, ?_, ?_, ?_, ?_, ?_, ?_, ?_, ?_⟩
  · intro pool starter script
    have hinv := runSingle_InvS pool script (initSingle starter)
      (initSingle_InvS starter) (initSingle_lives_pos starter)
    exact hinv.2.2
  · intro pool starter s1 s2
    have hm := runSingle_append_mono pool s1 s2 (initSingle starter)
    exact ⟨hm.1, hm.2.1⟩
  · intro pool pick idx st st' h
    obtain ⟨cand, hch, hcommit⟩ := playRound_resolved h
    refine ⟨cand, hch, ?_⟩
    cases hco : is_correct_insertion st.timeline cand (idx : Int) with
    | true =>
      refine Or.inl ⟨rfl, ?_, ?_⟩ <;>
        rw [hcommit] <;> simp only [commitSingle, hco, if_true]
    | false =>
      refine Or.inr ⟨rfl, ?_, ?_⟩ <;>
        rw [hcommit] <;> simp only [commitSingle, hco] <;> rfl
  · intro pool pick inp st st' h
    obtain ⟨cand, idx, hch, hinp, hnb1, hnb2, hst'⟩ :=
      playRoundTwo_next_resolved h
    refine ⟨cand, idx, hinp, hch, ?_⟩
    cases hco : is_correct_insertion st.timeline cand (idx : Int) with
    | true =>
      refine Or.inl ⟨rfl, ?_, ?_⟩ <;>
        rw [hst'] <;> simp only [commitTwo, hco, if_true]
    | false =>
      refine Or.inr ⟨rfl, ?_, ?_⟩ <;>
        rw [hst'] <;> simp only [commitTwo, hco] <;> rfl
  · intro pool pick inp st st' hnb h
    rcases playRoundTwo_bothOut_resolved h with ⟨hb0, hb1, _⟩ | hres
    · exact absurd ⟨hb0, hb1⟩ hnb
    · obtain ⟨cand, idx, hch, hinp, hd0, hd1, hst'⟩ := hres
      refine ⟨cand, idx, hinp, hch, ?_⟩
      cases hco : is_correct_insertion st.timeline cand (idx : Int) with
      | true =>
        refine Or.inl ⟨rfl, ?_, ?_⟩ <;>
          rw [hst'] <;> simp only [commitTwo, hco, if_true]
      | false =>
        refine Or.inr ⟨rfl, ?_, ?_⟩ <;>
          rw [hst'] <;> simp only [commitTwo, hco] <;> rfl
  · intro pool starter script i
    have hinv := runTwo_InvT pool script (initTwo starter)
      (initTwo_InvT starter) (initTwo_alive starter)
    exact hinv.2.2.2.2.2 i
  · intro pool starter s1 s2 i
    have hm := runTwo_append_mono pool s1 s2 (initTwo starter)
    exact ⟨hm.1 i, hm.2.1 i⟩
  · intro pool starter s1 s2 hz
    have hm := (runSingle_append_mono pool s1 s2 (initSingle starter)).1
    have hb := (runSingle_InvS pool (s1 ++ s2) (initSingle starter)
      (initSingle_InvS starter) (initSingle_lives_pos starter)).2.2.1
    omega
  · intro pool starter s1 s2 i hz
    have hm := (runTwo_append_mono pool s1 s2 (initTwo starter)).1 i
    have hb := ((runTwo_InvT pool (s1 ++ s2) (initTwo starter)
      (initTwo_InvT starter) (initTwo_alive starter)).2.2.2.2.2 i).1
    omega

theorem claim_C5_witness :
    ∃ cand,
      choose_next_song [songA, songB] (initSingle songA).used_ids
        (initSingle songA).used_years 0 = some cand ∧
      ((is_correct_insertion (initSingle songA).timeline cand ((1 : Nat) : Int)
          = true ∧
        (commitSingle (initSingle songA) songB 1).score =
          (initSingle songA).score + 1 ∧
        (commitSingle (initSingle songA) songB 1).lives =
          (initSingle songA).lives) ∨
       (is_correct_insertion (initSingle songA).timeline cand ((1 : Nat) : Int)
          = false ∧
        (commitSingle (initSingle songA) songB 1).score =
          (initSingle songA).score ∧
        (commitSingle (initSingle songA) songB 1).lives =
          (initSingle songA).lives - 1)) := by
  have hch : choose_next_song [songA, songB] (initSingle songA).used_ids
      (initSingle songA).used_years 0 = some songB := by decide
  have hlv : (initSingle songA).lives = 3 := rfl
  have hne : ¬((commitSingle (initSingle songA) songB 1).lives ≤ 0) := by
    simp only [commitSingle]
    split <;> omega
  exact claim_C5.2.2.1 [songA, songB] 0 1 (initSingle songA) _
    (Or.inl (by rw [playRound_place_eq 1 hch, if_neg hne]))

/-- C7: after every resolved round — right or wrong guess alike, including
the two-player round whose wrong placement eliminates the last living
player — the drawn candidate is committed into the timeline, which is
re-sorted by year (so the candidate sits at its true chronological
position), and its id and year are added to the session's used sets. -/
theorem claim_C7 :
    (∀ (pool : List Song) (pick idx : Nat) (st st' : SingleState)
      (cand : Song),
      choose_next_song pool st.used_ids st.used_years pick = some cand →
      (playRound pool pick (.place idx) st = .next st' ∨
       playRound pool pick (.place idx) st = .gameOver st') →
      st'.timeline.Perm (st.timeline ++ [cand]) ∧
      st'.timeline.Pairwise (fun a b => a.year ≤ b.year) ∧
      cand ∈ st'.timeline ∧
      st'.used_ids = insert cand.track_id st.used_ids ∧
      st'.used_years = insert cand.year st.used_years) ∧
    (∀ (pool : List Song) (pick : Nat) (inp : RoundInput) (st st' : TwoState)
      (cand : Song),
      choose_next_song pool st.used_ids st.used_years pick = some cand →
      playRoundTwo pool pick inp st = .next st' →
      st'.timeline.Perm (st.timeline ++ [cand]) ∧
      st'.timeline.Pairwise (fun a b => a.year ≤ b.year) ∧
      cand ∈ st'.timeline ∧
      st'.used_ids = insert cand.track_id st.used_ids ∧
      st'.used_years = insert cand.year st.used_years) ∧
    (∀ (pool : List Song) (pick : Nat) (inp : RoundInput) (st st' : TwoState)
      (cand : Song),
      choose_next_song pool st.used_ids st.used_years pick = some cand →
      ¬(st.lives.getD 0 0 ≤ 0 ∧ st.lives.getD 1 0 ≤ 0) →
      playRoundTwo pool pick inp st = .bothOut st' →
      st'.timeline.Perm (st.timeline ++ [cand]) ∧
      st'.timeline.Pairwise (fun a b => a.year ≤ b.year) ∧
      cand ∈ st'.timeline ∧
      st'.used_ids = insert cand.track_id st.used_ids ∧
      st'.used_years = insert cand.year st.used_years) := by
  refine ⟨?_, ?_, ?_⟩
  · intro pool pick idx st st' cand hch h
    obtain ⟨cand', hch', hcommit⟩ := playRound_resolved h
    have hcc : cand' = cand := Option.some_inj.mp (hch'.symm.trans hch)
    subst hcc
    rw [hcommit]
    refine ⟨sortByYear_perm _, sortByYear_sorted _, ?_, rfl, rfl⟩
    exact (sortByYear_perm _).mem_iff.mpr
      (List.mem_append.mpr (Or.inr (List.mem_singleton_self _)))
  · intro pool pick inp st st' cand hch h
    obtain ⟨cand', idx, hch', hinp, hnb1, hnb2, hst'⟩ :=
      playRoundTwo_next_resolved h
    have hcc : cand' = cand := Option.some_inj.mp (hch'.symm.trans hch)
    subst hcc
    rw [hst']
    refine ⟨sortByYear_perm _, sortByYear_sorted _, ?_, rfl, rfl⟩
    exact (sortByYear_perm _).mem_iff.mpr
      (List.mem_append.mpr (Or.inr (List.mem_singleton_self _)))
  · intro pool pick inp st st' cand hch hnb h
    rcases playRoundTwo_bothOut_resolved h with ⟨hb0, hb1, _⟩ | hres
    · exact absurd ⟨hb0, hb1⟩ hnb
    · obtain ⟨cand', idx, hch', hinp, hd0, hd1, hst'⟩ := hres
      have hcc : cand' = cand := Option.some_inj.mp (hch'.symm.trans hch)
      subst hcc
      rw [hst']
      refine ⟨sortByYear_perm _, sortByYear_sorted _, ?_, rfl, rfl⟩
      exact (sortByYear_perm _).mem_iff.mpr
        (List.mem_append.mpr (Or.inr (List.mem_singleton_self _)))

theorem claim_C7_witness :
    (commitSingle (initSingle songA) songB 1).timeline.Perm
      ((initSingle songA).timeline ++ [songB]) ∧
    (commitSingle (initSingle songA) songB 1).timeline.Pairwise
      (fun a b => a.year ≤ b.year) ∧
    songB ∈ (commitSingle (initSingle songA) songB 1).timeline ∧
    (commitSingle (initSingle songA) songB 1).used_ids =
      insert songB.track_id (initSingle songA).used_ids ∧
    (commitSingle (initSingle songA) songB 1).used_years =
      insert songB.year (initSingle songA).used_years := by
  have hch : choose_next_song [songA, songB] (initSingle songA).used_ids
      (initSingle songA).used_years 0 = some songB := by decide
  have hlv : (initSingle songA).lives = 3 := rfl
  have hne : ¬((commitSingle (initSingle songA) songB 1).lives ≤ 0) := by
    simp only [commitSingle]
    split <;> omega
  exact claim_C7.1 [songA, songB] 0 1 (initSingle songA) _ songB hch
    (Or.inl (by rw [playRound_place_eq 1 hch, if_neg hne]))

theorem runTwo_ended_winner (pool : List Song)
    (script : List (Nat × RoundInput)) (st : TwoState) (w : TwoWinner)
    (h : (runTwo pool script st).2 = .deckCleared w ∨
         (runTwo pool script st).2 = .allEliminated w) :
    w = declareWinner (runTwo pool script st).1.scores := by
  induction script generalizing st with
  | nil => rcases h with h | h <;> cases h
  | cons hd rest ih =>
    obtain ⟨pick, inp⟩ := hd
    rw [runTwo_cons] at h ⊢
    cases hr : playRoundTwo pool pick inp st with
    | next st' =>
      rw [hr] at h
      exact ih st' h
    | deckCleared st' =>
      rw [hr] at h
      rcases h with h | h
      · cases h
        rfl
      · cases h
    | bothOut st' =>
      rw [hr] at h
      rcases h with h | h
      · cases h
      · cases h
        rfl
    | aborted st' =>
      rw [hr] at h
      rcases h with h | h <;> cases h

/-- C8: at the end of every two-player session the winner is decided only by
the final scores: strictly higher score wins, equal scores tie, and lives
never enter the comparison. -/
theorem claim_C8 :
    (∀ scores : List Int,
      (declareWinner scores = .p0 ↔ scores.getD 1 0 < scores.getD 0 0) ∧
      (declareWinner scores = .p1 ↔ scores.getD 0 0 < scores.getD 1 0) ∧
      (declareWinner scores = .tie ↔ scores.getD 0 0 = scores.getD 1 0)) ∧
    (∀ (pool : List Song) (starter : Song) (script : List (Nat × RoundInput))
      (w : TwoWinner),
      ((runTwo pool script (initTwo starter)).2 = .deckCleared w ∨
       (runTwo pool script (initTwo starter)).2 = .allEliminated w) →
      w = declareWinner (runTwo pool script (initTwo starter)).1.scores) ∧
    (∀ a b : TwoState, a.scores = b.scores →
      declareWinner a.scores = declareWinner b.scores) := by
  refine ⟨?_, ?_, ?_⟩
  · intro scores
    unfold declareWinner
    split_ifs with h1 h2
    · exact ⟨⟨fun _ => h1, fun _ => rfl⟩,
        ⟨fun hx => (by cases hx), fun hx => absurd h1 (by omega)⟩,
        ⟨fun hx => (by cases hx), fun hx => absurd h1 (by omega)⟩⟩
    · exact ⟨⟨fun hx => (by cases hx), fun hx => absurd h2 (by omega)⟩,
        ⟨fun _ => h2, fun _ => rfl⟩,
        ⟨fun hx => (by cases hx), fun hx => absurd h2 (by omega)⟩⟩
    · exact ⟨⟨fun hx => (by cases hx), fun hx => absurd hx (by omega)⟩,
        ⟨fun hx => (by cases hx), fun hx => absurd hx (by omega)⟩,
        ⟨fun _ => (by omega), fun _ => rfl⟩⟩
  · intro pool starter script w h
    exact runTwo_ended_winner pool script (initTwo starter) w h
  · intro a b h
    rw [h]

theorem claim_C8_witness :
    TwoWinner.tie =
      declareWinner (runTwo [songA] [(0, .place 0)] (initTwo songA)).1.scores :=
  claim_C8.2.1 [songA] songA [(0, .place 0)] .tie (Or.inl (by decide))

/-- C9: an EXIT at a placement prompt aborts the session immediately with no
state change: the drawn candidate is neither committed nor marked used, and
timeline, lives, scores and used sets are all left exactly as they were. -/
theorem claim_C9 :
    (∀ (pool : List Song) (pick : Nat) (st : SingleState) (cand : Song),
      choose_next_song pool st.used_ids st.used_years pick = some cand →
      playRound pool pick .quit st = .aborted st) ∧
    (∀ (pool : List Song) (pick : Nat) (rest : List (Nat × RoundInput))
      (st : SingleState) (cand : Song),
      choose_next_song pool st.used_ids st.used_years pick = some cand →
      runSingle pool ((pick, .quit) :: rest) st = (st, .aborted)) ∧
    (∀ (pool : List Song) (pick : Nat) (inp : RoundInput) (st st' : TwoState),
      playRoundTwo pool pick inp st = .aborted st' →
      st'.timeline = st.timeline ∧ st'.used_ids = st.used_ids ∧
      st'.used_years = st.used_years ∧ st'.lives = st.lives ∧
      st'.scores = st.scores) := by
  refine ⟨?_, ?_, ?_⟩
  · intro pool pick st cand hch
    exact playRound_quit_eq hch
  · intro pool pick rest st cand hch
    rw [runSingle_cons, playRound_quit_eq hch]
  · intro pool pick inp st st' h
    rw [playRoundTwo_aborted_state h]
    exact ⟨rfl, rfl, rfl, rfl, rfl⟩

theorem claim_C9_witness :
    runSingle [songA, songB] [(0, .quit)] (initSingle songA) =
      (initSingle songA, .aborted) :=
  claim_C9.2.1 [songA, songB] 0 [] (initSingle songA) songB (by decide)
